import Mathlib

/-!
Shallow embedding of `src/asthma_subKG/create_wikidata_asthma_subgraph.py`
(class `EnhancedMedicalKGExtractor`).

External services (the Wikidata SPARQL endpoint and the EntityData HTTP
endpoint) are modelled as oracle parameters.  Python dicts are modelled
either as association lists with in-place-update insertion (`dictInsert`)
and first-match lookup (`dictGet`) — which agrees with Python dict
semantics because every insertion either overwrites in place or appends a
fresh key — or, for the process-wide `self.entity_metadata` cache, as a
function `String → Option Metadata`.

The `ExpandState` record carries three ghost fields (`fetchLog`, `enqLog`,
`depthLog`) that record observable events of the traversal (each call to
`get_entity_data`, each append to `entities_to_process` made while
expanding a node, and the dequeue-depth at which each triple was
extracted).  They are write-only: no control decision reads them, so they
do not alter the behaviour being modelled.
-/

namespace KG

/-- Label/description record for one entity, as stored in
`self.entity_metadata`.  Python stores a dict that may in principle lack
either key, hence both fields are optional; readers use `.get` with a
fallback. -/
structure Metadata where
  label : Option String
  description : Option String
deriving DecidableEq, Repr

/-- The `mainsnak` part of a Wikidata claim, reduced to the two pieces the
code reads: `mainsnak.get('datatype')`, and the target item id.
`valueId = some t` models the case where `mainsnak['datavalue']['value']`
is a dict that contains key `'id'` with value `t` (the Python test
`value and 'id' in value` then succeeds, since a dict containing a key is
non-empty); `valueId = none` models every other shape of `datavalue`. -/
structure Mainsnak where
  datatype : Option String
  valueId : Option String
deriving DecidableEq, Repr

/-- One qualifier snak: `datavalue = some v` models a present, truthy
`qual['datavalue']` whose `.get('value')` is `v`; `none` models an absent
or falsy `datavalue`. -/
structure QualSnak where
  datavalue : Option (Option String)
deriving DecidableEq, Repr

/-- One claim: its mainsnak (a missing `'mainsnak'` key is the record with
both fields `none`, matching `claim.get('mainsnak', \x7b\x7d)`), and the
optional `'qualifiers'` dict (property id paired with its snak list). -/
structure Claim where
  mainsnak : Mainsnak
  qualifiers : Option (List (String × List QualSnak))
deriving DecidableEq, Repr

/-- Raw node payload as returned by `get_entity_data`: the `'id'` field and
the optional `'claims'` dict (property id paired with its claim list). -/
structure EntityData where
  id : String
  claims : Option (List (String × List Claim))
deriving DecidableEq, Repr

/-- Python dict lookup `d[k]` / `k in d`, on an association list. -/
def dictGet {α : Type} (k : String) : List (String × α) → Option α
  | [] => none
  | p :: ps => if p.1 = k then some p.2 else dictGet k ps

/-- Python dict assignment `d[k] = v`: overwrite in place if the key is
present, otherwise append the new binding at the end (insertion order). -/
def dictInsert {α : Type} (d : List (String × α)) (k : String) (v : α) :
    List (String × α) :=
  if (dictGet k d).isSome then
    d.map (fun p => if p.1 = k then (k, v) else p)
  else d ++ [(k, v)]

/-- The `self.medical_properties` table, verbatim from the source (the
Python dict literal repeats keys `P780` and `P2176` with identical values;
dict construction keeps the last occurrence, which here equals the first,
so first-match lookup on this list agrees with the Python dict). -/
def medical_properties : List (String × String) :=
  [("P31", "instance of"),
   ("P279", "subclass of"),
   ("P780", "symptoms"),
   ("P828", "has cause"),
   ("P927", "anatomical location"),
   ("P2176", "drug used for treatment"),
   ("P1050", "medical condition"),
   ("P1995", "health specialty"),
   ("P2293", "genetic association"),
   ("P1542", "has effect"),
   ("P1060", "pathogen transmission process"),
   ("P2849", "produced by"),
   ("P2175", "medical condition treated"),
   ("P3489", "pregnancy category"),
   ("P3433", "biological pathway"),
   ("P3781", "has active ingredient")]

/-- One SPARQL result row of `get_entity_metadata`: the entity URI and the
optional `label` / `description` binding values (`result.get("label",
\x7b\x7d).get("value", "")` reads them with fallback `""`). -/
structure QueryBinding where
  entity : String
  label : Option String
  description : Option String
deriving DecidableEq, Repr

/-- The dict-building loop of `get_entity_metadata`: for each row, the
entity id is the last `/`-separated component of the URI, and the stored
metadata always carries both keys (with `""` fallbacks). -/
def buildMetadataDict (bindings : List QueryBinding) :
    List (String × Metadata) :=
  bindings.foldl
    (fun md b =>
      let entity_id := (b.entity.splitOn "/").getLastD ""
      dictInsert md entity_id
        ⟨some (b.label.getD ""), some (b.description.getD "")⟩)
    []

/-- `get_entity_metadata(entity_ids)`.  The SPARQL round trip is the oracle
`runQuery`; `Except.error` models any exception raised while querying or
converting the response, which the code catches, logs, and turns into the
empty dict.  An empty id list returns the empty dict before any query. -/
def get_entity_metadata
    (runQuery : List String → Except String (List QueryBinding))
    (entity_ids : List String) : List (String × Metadata) :=
  if entity_ids.isEmpty then []
  else
    match runQuery entity_ids with
    | Except.ok results => buildMetadataDict results
    | Except.error _ => []

/-- One endpoint of a triple: `\x7b'id': ..., 'metadata': ...\x7d`. -/
structure TripleEnd where
  id : String
  metadata : Metadata
deriving DecidableEq, Repr

/-- The `predicate` part of a triple: `\x7b'id': ..., 'label': ...\x7d`. -/
structure PredInfo where
  id : String
  label : String
deriving DecidableEq, Repr

/-- One extracted qualifier `\x7b'property': ..., 'value': ...\x7d` (the
value is `qual['datavalue'].get('value')`, hence optional). -/
structure Qualifier where
  property : String
  value : Option String
deriving DecidableEq, Repr

/-- One enhanced triple as built by `extract_triples_with_metadata`. -/
structure Triple where
  source : TripleEnd
  predicate : PredInfo
  target : TripleEnd
  qualifiers : List Qualifier
deriving DecidableEq, Repr

/-- The qualifier-collection loop inside `extract_triples_with_metadata`. -/
def extractQualifiers (claim : Claim) : List Qualifier :=
  match claim.qualifiers with
  | none => []
  | some qs =>
    qs.flatMap fun qv =>
      qv.2.filterMap fun q =>
        match q.datavalue with
        | some v => some ⟨qv.1, v⟩
        | none => none

/-- `extract_triples_with_metadata(entity_data)`, with the process-wide
metadata cache `self.entity_metadata` passed explicitly as `em`.
`entity_data = none` covers both `None` and falsy payloads; a payload
without a `'claims'` key yields no triples.  Properties outside
`medical_properties` are skipped; a claim produces a triple exactly when
its mainsnak datatype is `wikibase-item` and its datavalue carries an item
id.  Endpoint metadata is `self.entity_metadata.get(id, \x7b\x7d)`, the
record with both fields `none` standing for the empty dict. -/
def extract_triples_with_metadata (em : String → Option Metadata)
    (entity_data : Option EntityData) : List Triple :=
  match entity_data with
  | none => []
  | some ed =>
    match ed.claims with
    | none => []
    | some cs =>
      cs.flatMap fun pc =>
        match dictGet pc.1 medical_properties with
        | none => []
        | some plabel =>
          pc.2.filterMap fun claim =>
            if claim.mainsnak.datatype = some "wikibase-item" then
              match claim.mainsnak.valueId with
              | some target_id =>
                some
                  { source := ⟨ed.id, (em ed.id).getD ⟨none, none⟩⟩
                    predicate := ⟨pc.1, plabel⟩
                    target := ⟨target_id, (em target_id).getD ⟨none, none⟩⟩
                    qualifiers := extractQualifiers claim }
              | none => none
            else none

/-- Value stored in the `entities` dict by `expand_subgraph`:
`\x7b'data': entity_data, 'metadata': self.entity_metadata.get(id, \x7b\x7d)\x7d`. -/
structure StoredEntity where
  data : EntityData
  metadata : Metadata
deriving DecidableEq, Repr

/-- The mutable state of one `expand_subgraph` run.  The first five fields
are the Python locals `entities`, `all_triples`, `entities_to_process`,
`processed_entities` and the instance cache `self.entity_metadata` (the
counters `total_entities` / `current_entity` feed only `print` calls and
are omitted).  The last three fields are write-only instrumentation:
`fetchLog` records each id passed to `get_entity_data`, `enqLog` records
each `(target_id, depth + 1)` appended to `entities_to_process` while
expanding a node, and `depthLog` pairs each extracted triple with the
depth of the frontier entry that produced it. -/
structure ExpandState where
  entities : List (String × StoredEntity)
  all_triples : List Triple
  entities_to_process : List (String × Nat)
  processed_entities : List String
  entity_metadata : String → Option Metadata
  fetchLog : List String
  enqLog : List (String × Nat)
  depthLog : List (Nat × Triple)

/-- The body of the `for current_id, depth in current_batch` loop of
`expand_subgraph`.  The node Fetcher (`self.get_entity_data`, a network
call) is the oracle `fetch`.  A dequeued entry already in
`processed_entities`, or whose depth is `≥ max_depth`, is skipped with no
effect; otherwise the id is marked processed and fetched; on fetch failure
nothing else happens; on success the node is stored, its triples are
extracted and appended, and each triple target *not already in
`processed_entities`* is appended to the frontier at `depth + 1`
(`processed_entities` is not changed inside that inner loop, so the
membership tests all see the set that already includes `current_id`). -/
def processEntity (fetch : String → Option EntityData) (max_depth : Nat)
    (st : ExpandState) (entry : String × Nat) : ExpandState :=
  let current_id := entry.1
  let depth := entry.2
  if current_id ∈ st.processed_entities ∨ max_depth ≤ depth then st
  else
    let st1 : ExpandState :=
      { st with
        processed_entities := st.processed_entities ++ [current_id]
        fetchLog := st.fetchLog ++ [current_id] }
    match fetch current_id with
    | none => st1
    | some entity_data =>
      let stored : StoredEntity :=
        ⟨entity_data, (st1.entity_metadata current_id).getD ⟨none, none⟩⟩
      let triples :=
        extract_triples_with_metadata st1.entity_metadata (some entity_data)
      let newEntries :=
        triples.filterMap fun t =>
          if t.target.id ∈ st1.processed_entities then none
          else some (t.target.id, depth + 1)
      { st1 with
        entities := dictInsert st1.entities current_id stored
        all_triples := st1.all_triples ++ triples
        entities_to_process := st1.entities_to_process ++ newEntries
        enqLog := st1.enqLog ++ newEntries
        depthLog := st1.depthLog ++ triples.map (fun t => (depth, t)) }

/-- The `while entities_to_process:` loop of `expand_subgraph`, with a fuel
parameter (one unit per iteration; the Python loop runs until the frontier
empties, and every theorem below holds for every fuel).  Each iteration
pops a batch of at most 50 entries, merges the batch's
`get_entity_metadata` result into the metadata cache (new bindings
override old ones, as `dict.update` does), and then folds `processEntity`
over the batch. -/
def expandLoop (fetch : String → Option EntityData)
    (runQuery : List String → Except String (List QueryBinding))
    (max_depth : Nat) : Nat → ExpandState → ExpandState
  | 0, st => st
  | Nat.succ fuel, st =>
    if st.entities_to_process.isEmpty then st
    else
      let batch_size := min 50 st.entities_to_process.length
      let current_batch := st.entities_to_process.take batch_size
      let remaining := st.entities_to_process.drop batch_size
      let batch_ids := current_batch.map Prod.fst
      let new_metadata := get_entity_metadata runQuery batch_ids
      let st1 : ExpandState :=
        { st with
          entities_to_process := remaining
          entity_metadata := fun k =>
            match dictGet k new_metadata with
            | some m => some m
            | none => st.entity_metadata k }
      let st2 := current_batch.foldl (processEntity fetch max_depth) st1
      expandLoop fetch runQuery max_depth fuel st2

/-- `expand_subgraph(seed_entities, max_depth)` (default `max_depth = 4`):
the frontier starts with every seed at depth 0, and `em0` is the content
of `self.entity_metadata` when the run starts (empty unless the caller
pre-seeded it). -/
def expand_subgraph (fetch : String → Option EntityData)
    (runQuery : List String → Except String (List QueryBinding))
    (em0 : String → Option Metadata) (seed_entities : List String)
    (max_depth fuel : Nat) : ExpandState :=
  expandLoop fetch runQuery max_depth fuel
    { entities := []
      all_triples := []
      entities_to_process := seed_entities.map (fun s => (s, 0))
      processed_entities := []
      entity_metadata := em0
      fetchLog := []
      enqLog := []
      depthLog := [] }

/-- The dict `expand_subgraph` returns: `\x7b'entities': ..., 'triples':
...\x7d`. -/
structure Subgraph where
  entities : List (String × StoredEntity)
  triples : List Triple
deriving Repr

/-- Projection of a final expansion state to the returned dict. -/
def subgraphOf (st : ExpandState) : Subgraph :=
  ⟨st.entities, st.all_triples⟩

/-- One `\x7btarget, relation, qualifiers\x7d` record of
`disease_connections`. -/
structure Connection where
  target : String
  relation : String
  qualifiers : List Qualifier
deriving DecidableEq, Repr

/-- One `hub_entities` record. -/
structure HubInfo where
  label : String
  description : String
  connection_count : Nat
deriving DecidableEq, Repr

/-- The analysis dict built by `analyze_subgraph`. -/
structure Analysis where
  entity_count : Nat
  triple_count : Nat
  property_distribution : List (String × Nat)
  entity_types : List (String × List String)
  disease_connections : List (String × List Connection)
  hub_entities : List (String × HubInfo)
deriving DecidableEq, Repr

/-- `defaultdict(int)` increment: `d[k] += 1`. -/
def bumpCount (d : List (String × Nat)) (k : String) : List (String × Nat) :=
  if (dictGet k d).isSome then
    d.map (fun p => if p.1 = k then (p.1, p.2 + 1) else p)
  else d ++ [(k, 1)]

/-- `defaultdict(list)` append: `d[k].append(v)`. -/
def appendAt {α : Type} (d : List (String × List α)) (k : String) (v : α) :
    List (String × List α) :=
  if (dictGet k d).isSome then
    d.map (fun p => if p.1 = k then (p.1, p.2 ++ [v]) else p)
  else d ++ [(k, [v])]

/-- The per-endpoint body of the hub-entity loop: if the id is not yet in
`hub_entities` it is seeded with `metadata.get('label', entity_id)`,
`metadata.get('description', '')` and count 0, and then (in both cases)
its `connection_count` is incremented. -/
def hubTouch (d : List (String × HubInfo)) (entity_id : String)
    (metadata : Metadata) : List (String × HubInfo) :=
  let d1 :=
    if (dictGet entity_id d).isSome then d
    else
      d ++ [(entity_id,
             ⟨metadata.label.getD entity_id, metadata.description.getD "", 0⟩)]
  d1.map fun p =>
    if p.1 = entity_id then
      (p.1, { p.2 with connection_count := p.2.connection_count + 1 })
    else p

/-- The body of the `for triple in subgraph['triples']` loop of
`analyze_subgraph`.  In `disease_connections` the relation label is
`self.medical_properties[prop_id]`; the Python indexing would raise
`KeyError` for a property outside the table, a case that cannot arise for
triples built by `extract_triples_with_metadata`, so the defined branch is
modelled and the impossible one maps to `""`. -/
def analyzeStep (a : Analysis) (t : Triple) : Analysis :=
  let prop_id := t.predicate.id
  let source_id := t.source.id
  let target_id := t.target.id
  let a1 :=
    { a with property_distribution := bumpCount a.property_distribution prop_id }
  let source_label := t.source.metadata.label.getD source_id
  let target_label := t.target.metadata.label.getD target_id
  let a2 :=
    if prop_id = "P31" then
      { a1 with entity_types := appendAt a1.entity_types target_label source_label }
    else a1
  let conn : Connection :=
    ⟨target_label, (dictGet prop_id medical_properties).getD "", t.qualifiers⟩
  let a3 :=
    { a2 with
      disease_connections := appendAt a2.disease_connections source_label conn }
  let a4 :=
    { a3 with hub_entities := hubTouch a3.hub_entities source_id t.source.metadata }
  { a4 with hub_entities := hubTouch a4.hub_entities target_id t.target.metadata }

/-- Stable descending insertion (by `connection_count`): the new element
goes after every already-placed element whose count is `≥` its own, which
is exactly where Python's stable `sorted(..., key=connection_count,
reverse=True)` leaves it. -/
def insertDesc (x : String × HubInfo) :
    List (String × HubInfo) → List (String × HubInfo)
  | [] => [x]
  | y :: ys =>
    if y.2.connection_count < x.2.connection_count then x :: y :: ys
    else y :: insertDesc x ys

/-- Stable sort of the hub list by descending `connection_count`
(insertion sort, processing the list left to right, so ties keep their
first-seen order — the behaviour of Python's stable `sorted` with
`reverse=True`). -/
def sortByCountDesc (l : List (String × HubInfo)) :
    List (String × HubInfo) :=
  l.foldl (fun acc x => insertDesc x acc) []

/-- The initial analysis dict: `entity_count` and `triple_count` are the
input sizes, every tally starts empty. -/
def analyzeBase (subgraph : Subgraph) : Analysis :=
  ⟨subgraph.entities.length, subgraph.triples.length, [], [], [], []⟩

/-- `analyze_subgraph(subgraph)`: single pass over the triples starting
from the empty tallies, then the hub dict is rebuilt sorted by descending
connection count and truncated to the top 20. -/
def analyze_subgraph (subgraph : Subgraph) : Analysis :=
  let a := subgraph.triples.foldl analyzeStep (analyzeBase subgraph)
  { a with hub_entities := (sortByCountDesc a.hub_entities).take 20 }

/-- Parsed body of one HTTP response of the EntityData endpoint: the
`data['entities']` table (a response lacking the `'entities'` key is
modelled by an empty table — indexing it raises `KeyError` either way). -/
structure RawResponse where
  entities : List (String × EntityData)
deriving DecidableEq, Repr

/-- Outcome of one network attempt inside `get_entity_data`:
`reqError` is any `requests.exceptions.RequestException` (connection
failure, `raise_for_status` on an HTTP error status, malformed JSON body
in current `requests`, where `JSONDecodeError` subclasses
`RequestException`); `response` is a successfully parsed JSON body. -/
inductive AttemptOutcome where
  | reqError : AttemptOutcome
  | response : RawResponse → AttemptOutcome
deriving DecidableEq, Repr

/-- Observable trace of one `get_entity_data` call: its return value, the
sequence of `time.sleep` durations, and the attempt indices at which the
network was actually consulted. -/
structure FetchTrace where
  result : Option EntityData
  sleeps : List Nat
  attempts : List Nat
deriving DecidableEq, Repr

/-- `max_retries = 3` in `get_entity_data`. -/
def max_retries : Nat := 3

/-- `retry_delay = 2` (seconds) in `get_entity_data`. -/
def retry_delay : Nat := 2

/-- The `for attempt in range(max_retries)` loop of `get_entity_data`.
On a parsed response, `data['entities'][entity_id]` either yields the
entity (returned at once) or raises `KeyError`, which the blanket
`except Exception` turns into an immediate `return None` — no retry.  On a
`RequestException`, a non-final attempt sleeps `retry_delay * (attempt +
1)` and continues; the final attempt returns `None`.  Falling off the end
of the loop (unreachable, since every branch returns or continues) would
also return `None`. -/
def getEntityDataGo (net : Nat → AttemptOutcome) (entity_id : String) :
    List Nat → List Nat → List Nat → FetchTrace
  | [], sleeps, attempts => ⟨none, sleeps, attempts⟩
  | attempt :: rest, sleeps, attempts =>
    let attempts1 := attempts ++ [attempt]
    match net attempt with
    | AttemptOutcome.response resp =>
      match dictGet entity_id resp.entities with
      | some d => ⟨some d, sleeps, attempts1⟩
      | none => ⟨none, sleeps, attempts1⟩
    | AttemptOutcome.reqError =>
      if attempt < max_retries - 1 then
        getEntityDataGo net entity_id rest
          (sleeps ++ [retry_delay * (attempt + 1)]) attempts1
      else ⟨none, sleeps, attempts1⟩

/-- `get_entity_data(entity_id)` with the network modelled by `net`
(outcome of each attempt, indexed from 0). -/
def get_entity_data (net : Nat → AttemptOutcome) (entity_id : String) :
    FetchTrace :=
  getEntityDataGo net entity_id (List.range max_retries) [] []

/-! Concrete oracles used by the example-scenario theorems below. -/

/-- A claim whose mainsnak is item-valued with the given target. -/
def itemClaim (target : String) : Claim :=
  ⟨⟨some "wikibase-item", some target⟩, none⟩

/-- Entity payload holding exactly one claim, `selfId --P780--> target`
(`P780`, symptoms, is in the Relation Catalog). -/
def edTo (selfId target : String) : EntityData :=
  ⟨selfId, some [("P780", [itemClaim target])]⟩

/-- Fetcher of the spec's example scenario: `A` has the single allowed
item-valued relation edge `A → B`, and `B` has the edge `B → C`. -/
def fetchAB : String → Option EntityData := fun s =>
  if s = "A" then some (edTo "A" "B")
  else if s = "B" then some (edTo "B" "C")
  else none

/-- Fetcher for a one-node cycle: `A` has the single allowed item-valued
relation edge `A → A`. -/
def fetchSelf : String → Option EntityData := fun s =>
  if s = "A" then some (edTo "A" "A") else none

/-- Metadata oracle whose every query fails. -/
def noQuery : List String → Except String (List QueryBinding) :=
  fun _ => Except.error "query failed"

/-- Empty initial metadata cache. -/
def emNone : String → Option Metadata := fun _ => none

/-- The spec's example run: seeds `A`, `max_depth = 1` (fuel 3 covers the
two batches the frontier ever holds plus the empty check). -/
def runC2 : ExpandState := expand_subgraph fetchAB noQuery emNone ["A"] 1 3

/-- The expansion of the one-node cycle with `max_depth = 2`. -/
def runSelf : ExpandState :=
  expand_subgraph fetchSelf noQuery emNone ["A"] 2 3

/-- The triple `A --P780--> B` as extracted in `runC2` (no metadata was
obtainable, so both endpoints carry the empty dict). -/
def tripleAB : Triple :=
  ⟨⟨"A", ⟨none, none⟩⟩, ⟨"P780", "symptoms"⟩, ⟨"B", ⟨none, none⟩⟩, []⟩

/-- The triple `A --P780--> A` as extracted in `runSelf`. -/
def tripleAA : Triple :=
  ⟨⟨"A", ⟨none, none⟩⟩, ⟨"P780", "symptoms"⟩, ⟨"A", ⟨none, none⟩⟩, []⟩

/-- Network oracle whose first attempt yields a parsed response that does
not contain the requested entity (a malformed/unexpected payload), and
whose later attempts would succeed. -/
def netMalformed : Nat → AttemptOutcome := fun n =>
  if n = 0 then AttemptOutcome.response ⟨[]⟩
  else AttemptOutcome.response ⟨[("A", ⟨"A", none⟩)]⟩

/-- Network oracle whose first attempt fails transiently and whose later
attempts succeed. -/
def netTransientThenGood : Nat → AttemptOutcome := fun n =>
  if n = 0 then AttemptOutcome.reqError
  else AttemptOutcome.response ⟨[("A", ⟨"A", none⟩)]⟩

/-- Network oracle that fails transiently on every attempt. -/
def netAllErr : Nat → AttemptOutcome := fun _ => AttemptOutcome.reqError

/-- Endpoint sequence of a triple list, in the order the hub-entity loop
of `analyze_subgraph` visits them (source then target, per triple). -/
def endpointsOf (ts : List Triple) : List (String × Metadata) :=
  ts.flatMap fun t =>
    [(t.source.id, t.source.metadata), (t.target.id, t.target.metadata)]

/-! Helper lemmas about the dictionary model. -/

theorem dictGet_append {α : Type} (k : String) (d e : List (String × α)) :
    dictGet k (d ++ e) = ((dictGet k d).or (dictGet k e)) := by
  induction d with
  | nil => simp [dictGet]
  | cons p ps ih =>
    by_cases hp : p.1 = k <;> simp [dictGet, hp, ih]

theorem dictGet_map_replace {α : Type} (k k' : String) (v : α)
    (d : List (String × α)) (hk : k ≠ k') :
    dictGet k (d.map fun p => if p.1 = k' then (k', v) else p) =
      dictGet k d := by
  induction d with
  | nil => simp [dictGet]
  | cons p ps ih =>
    by_cases hp : p.1 = k'
    · have : p.1 ≠ k := by rw [hp]; exact fun h => hk h.symm
      simp [dictGet, hp, this, Ne.symm hk, ih]
    · by_cases hpk : p.1 = k <;> simp [dictGet, hp, hpk, hk, ih]

theorem dictGet_map_replace_self {α : Type} (k' : String) (v : α)
    (d : List (String × α)) (hk : (dictGet k' d).isSome) :
    dictGet k' (d.map fun p => if p.1 = k' then (k', v) else p) = some v := by
  induction d with
  | nil => simp [dictGet] at hk
  | cons p ps ih =>
    by_cases hp : p.1 = k'
    · simp [dictGet, hp]
    · simp [dictGet, hp] at hk ⊢
      exact ih hk

theorem dictGet_dictInsert {α : Type} (d : List (String × α))
    (k' : String) (v : α) (k : String) :
    dictGet k (dictInsert d k' v) =
      if k = k' then some v else dictGet k d := by
  unfold dictInsert
  by_cases hk' : (dictGet k' d).isSome
  · rw [if_pos hk']
    by_cases hkk : k = k'
    · subst hkk
      rw [if_pos rfl]
      exact dictGet_map_replace_self k v d hk'
    · rw [if_neg hkk]
      exact dictGet_map_replace k k' v d hkk
  · rw [if_neg hk']
    rw [dictGet_append]
    by_cases hkk : k = k'
    · subst hkk
      have : dictGet k d = none := by
        cases h : dictGet k d with
        | none => rfl
        | some w => rw [h] at hk'; simp at hk'
      simp [this, dictGet]
    · have hk'k : k' ≠ k := fun hh => hkk hh.symm
      cases h : dictGet k d with
      | none => simp [h, dictGet, hkk, hk'k]
      | some w => simp [h, hkk]

theorem mem_dictInsert {α : Type} (d : List (String × α)) (k : String)
    (v : α) (p : String × α) (hp : p ∈ dictInsert d k v) :
    p ∈ d ∨ p = (k, v) := by
  unfold dictInsert at hp
  by_cases hk : (dictGet k d).isSome
  · rw [if_pos hk] at hp
    rw [List.mem_map] at hp
    obtain ⟨q, hq, hfq⟩ := hp
    by_cases hq1 : q.1 = k
    · right; rw [if_pos hq1] at hfq; exact hfq.symm
    · left; rw [if_neg hq1] at hfq; exact hfq ▸ hq
  · rw [if_neg hk] at hp
    rcases List.mem_append.mp hp with h | h
    · exact Or.inl h
    · right; simpa using h

theorem dictGet_mem {α : Type} (k : String) (d : List (String × α))
    (v : α) (h : dictGet k d = some v) : (k, v) ∈ d := by
  induction d with
  | nil => simp [dictGet] at h
  | cons p ps ih =>
    obtain ⟨a, b⟩ := p
    by_cases hp : a = k
    · simp [dictGet, hp] at h
      subst hp
      subst h
      exact List.mem_cons_self _ _
    · simp [dictGet, hp] at h
      exact List.mem_cons_of_mem _ (ih h)

/-! Generic invariant-propagation lemmas for the expansion loop. -/

theorem foldl_inv {α β : Type} {f : α → β → α} {I : α → Prop}
    (hf : ∀ s b, I s → I (f s b)) :
    ∀ (l : List β) (s : α), I s → I (l.foldl f s) := by
  intro l
  induction l with
  | nil => intro s h; exact h
  | cons b bs ih => intro s h; exact ih (f s b) (hf s b h)

theorem expandLoop_inv (fetch : String → Option EntityData)
    (runQuery : List String → Except String (List QueryBinding))
    (max_depth : Nat) (I : ExpandState → Prop)
    (hstep : ∀ st e, I st → I (processEntity fetch max_depth st e))
    (hpop : ∀ st ets em, I st →
      I { st with entities_to_process := ets, entity_metadata := em }) :
    ∀ (fuel : Nat) (st : ExpandState), I st →
      I (expandLoop fetch runQuery max_depth fuel st) := by
  intro fuel
  induction fuel with
  | zero => intro st h; exact h
  | succ n ih =>
    intro st h
    rw [expandLoop]
    by_cases he : st.entities_to_process.isEmpty
    · rw [if_pos he]; exact h
    · rw [if_neg he]
      exact ih _ (foldl_inv hstep _ _ (hpop st _ _ h))

/-! Characterization of membership in the extracted triple list. -/

theorem mem_extract (em : String → Option Metadata)
    (entity_data : Option EntityData) (t : Triple)
    (ht : t ∈ extract_triples_with_metadata em entity_data) :
    ∃ ed, entity_data = some ed ∧ t.source.id = ed.id ∧
      (dictGet t.predicate.id medical_properties).isSome ∧
      ∃ pc claim, pc ∈ ed.claims.getD [] ∧ pc.1 = t.predicate.id ∧
        claim ∈ pc.2 ∧
        claim.mainsnak.datatype = some "wikibase-item" ∧
        claim.mainsnak.valueId = some t.target.id := by
  cases entity_data with
  | none => simp [extract_triples_with_metadata] at ht
  | some ed =>
    refine ⟨ed, rfl, ?_⟩
    cases hc : ed.claims with
    | none => rw [extract_triples_with_metadata, hc] at ht; simp at ht
    | some cs =>
      rw [extract_triples_with_metadata, hc] at ht
      rw [List.mem_flatMap] at ht
      obtain ⟨pc, hpc, hmem⟩ := ht
      cases hcat : dictGet pc.1 medical_properties with
      | none => rw [hcat] at hmem; simp at hmem
      | some plabel =>
        rw [hcat] at hmem
        rw [List.mem_filterMap] at hmem
        obtain ⟨claim, hclaim, hg⟩ := hmem
        by_cases hd : claim.mainsnak.datatype = some "wikibase-item"
        · rw [if_pos hd] at hg
          cases hv : claim.mainsnak.valueId with
          | none => rw [hv] at hg; simp at hg
          | some target_id =>
            rw [hv] at hg
            have hrec := Option.some.inj hg
            subst hrec
            refine ⟨rfl, ?_, pc, claim, ?_, rfl, hclaim, hd, hv⟩
            · simp [hcat]
            · simp [hc, hpc]
        · rw [if_neg hd] at hg; simp at hg

/-! Claim theorems. -/

/-- Claim C1, counterexample.  The claim says every edge target is pushed
onto the frontier at `depth + 1` unconditionally, even if already in the
VisitedSet.  In the run `runSelf` (seed `A`, `max_depth = 2`, fetching `A`
yields the single allowed edge `A → A`) the edge `A → A` is extracted
while `A` is already in `processed_entities`, yet nothing is ever appended
to the frontier: the enqueue log of the whole run is empty, because line
194 of the source guards the append with
`if target_id not in processed_entities`. -/
theorem C1_visited_target_not_enqueued :
    runSelf.all_triples = [tripleAA] ∧ tripleAA.target.id = "A" ∧
    runSelf.processed_entities = ["A"] ∧ runSelf.enqLog = [] :=
  ⟨rfl, rfl, rfl, rfl⟩

/-- Claim C1 as amended: when a dequeued node is fetched and its relations
are translated into edges, each edge's target is pushed onto the frontier
at `depth + 1` only if the target is not in the VisitedSet at that moment
(the set then already contains the node being expanded); targets that are
merely queued but unvisited are pushed again, and those duplicates are
eliminated lazily at dequeue time by the skip transition of
`processEntity`. -/
theorem C1_push_filters_visited (fetch : String → Option EntityData)
    (max_depth : Nat) (st : ExpandState) (current_id : String) (depth : Nat)
    (ed : EntityData) (hnew : current_id ∉ st.processed_entities)
    (hdepth : depth < max_depth) (hfetch : fetch current_id = some ed) :
    (processEntity fetch max_depth st (current_id, depth)).enqLog =
      st.enqLog ++
        (extract_triples_with_metadata st.entity_metadata (some ed)).filterMap
          (fun t =>
            if t.target.id ∈ st.processed_entities ++ [current_id] then none
            else some (t.target.id, depth + 1)) ∧
    (processEntity fetch max_depth st (current_id, depth)).entities_to_process =
      st.entities_to_process ++
        (extract_triples_with_metadata st.entity_metadata (some ed)).filterMap
          (fun t =>
            if t.target.id ∈ st.processed_entities ++ [current_id] then none
            else some (t.target.id, depth + 1)) := by
  have hguard : ¬(current_id ∈ st.processed_entities ∨ max_depth ≤ depth) := by
    push_neg
    exact ⟨hnew, hdepth⟩
  unfold processEntity
  rw [if_neg hguard, hfetch]
  exact ⟨rfl, rfl⟩

/-- Witness for `C1_push_filters_visited` at the one-node cycle: expanding
`A` at depth 0 pushes nothing, since the only extracted target `A` is
already visited. -/
theorem C1_push_filters_visited_witness :
    (processEntity fetchSelf 2 ⟨[], [], [], [], emNone, [], [], []⟩
      ("A", 0)).enqLog = [] := by
  have h := C1_push_filters_visited fetchSelf 2
    ⟨[], [], [], [], emNone, [], [], []⟩ "A" 0 (edTo "A" "A")
    (by simp) (by decide) rfl
  rw [h.1]
  rfl

/-- Claim C2, counterexample.  In the spec's example run (`runC2`: seed
`A`, `max_depth = 1`, `A → B` and `B → C` via the allowed relation `P780`)
the claim expects `nodes = \x7bA, B\x7d` with `B` fetched and `C` enqueued
at depth 2.  In fact `B` is dequeued at depth 1, and `1 ≥ max_depth` makes
the skip transition drop it: `B` is never fetched, never enters the
entities map, and `C` is never enqueued. -/
theorem C2_B_is_skipped_not_fetched :
    dictGet "B" runC2.entities = none ∧ runC2.fetchLog = ["A"] ∧
    runC2.enqLog = [("B", 1)] :=
  ⟨rfl, rfl, rfl⟩

/-- Claim C2 as amended: for seeds `\x7bA\x7d` with `max_depth = 1`, where
fetching `A` yields the allowed item-valued edge `A → B` and fetching `B`
would yield `B → C`, the expansion fetches only `A`, produces
`nodes = \x7bA\x7d` and `edges = \x7bA → B\x7d`; `B` is enqueued at depth
1 and skipped at dequeue (`1 ≥ max_depth`), `C` is never enqueued, the
frontier drains, and the hub-entity counts are `A = 1` and `B = 1` (labels
fall back to the raw ids as no metadata was obtainable). -/
theorem C2_example_scenario :
    runC2.entities = [("A", ⟨edTo "A" "B", ⟨none, none⟩⟩)] ∧
    runC2.all_triples = [tripleAB] ∧
    runC2.fetchLog = ["A"] ∧
    runC2.enqLog = [("B", 1)] ∧
    runC2.entities_to_process = [] ∧
    (analyze_subgraph (subgraphOf runC2)).hub_entities =
      [("A", ⟨"A", "", 1⟩), ("B", ⟨"B", "", 1⟩)] :=
  ⟨rfl, rfl, rfl, rfl, rfl, rfl⟩

/-- Claim C3, counterexample.  The claim says a malformed/unexpected
payload is handled identically to a transient fetch error, i.e. retried up
to the same attempt cap.  With `netMalformed` (attempt 0 returns a parsed
response that lacks the requested entity, all later attempts would
succeed) `get_entity_data` gives up at once — one attempt, no sleep, no
data — while with `netTransientThenGood` (attempt 0 raises a request
error) it sleeps and retries, succeeding on attempt 1.  The two error
classes are therefore handled differently. -/
theorem C3_malformed_vs_transient :
    get_entity_data netMalformed "A" = ⟨none, [], [0]⟩ ∧
    get_entity_data netTransientThenGood "A" =
      ⟨some ⟨"A", none⟩, [2], [0, 1]⟩ :=
  ⟨rfl, rfl⟩

/-- Claim C3 as amended: a malformed or unexpected payload (a parsed
response in which looking up the requested entity fails, raising
`KeyError` in the source) is converted by the blanket `except Exception`
into a per-node Failure (`None`) immediately on the attempt where it
occurs — no retry, no further sleep — and never propagates as a crash;
only `RequestException`s are retried up to the attempt cap. -/
theorem C3_malformed_fails_immediately (net : Nat → AttemptOutcome)
    (entity_id : String) (attempt : Nat) (rest sleeps attempts : List Nat)
    (resp : RawResponse) (hresp : net attempt = AttemptOutcome.response resp)
    (hmiss : dictGet entity_id resp.entities = none) :
    getEntityDataGo net entity_id (attempt :: rest) sleeps attempts =
      ⟨none, sleeps, attempts ++ [attempt]⟩ := by
  simp [getEntityDataGo, hresp, hmiss]

/-- Witness for `C3_malformed_fails_immediately`: the first attempt of
`netMalformed` is an entity-less response, so the call fails at once. -/
theorem C3_malformed_fails_immediately_witness :
    getEntityDataGo netMalformed "A" [0, 1, 2] [] [] = ⟨none, [], [0]⟩ :=
  C3_malformed_fails_immediately netMalformed "A" 0 [1, 2] [] [] ⟨[]⟩ rfl rfl

/-- Claim C8: if the batch metadata query fails for any reason, the
Metadata Enricher returns an empty mapping for that batch instead of
raising (the `except` clause of `get_entity_metadata` returns `\x7b\x7d`),
so metadata is simply missing for every id of the batch and the run
continues. -/
theorem C8_batch_failure_yields_empty_mapping
    (runQuery : List String → Except String (List QueryBinding))
    (entity_ids : List String) (e : String)
    (h : runQuery entity_ids = Except.error e) :
    get_entity_metadata runQuery entity_ids = [] := by
  unfold get_entity_metadata
  by_cases hids : entity_ids.isEmpty
  · rw [if_pos hids]
  · rw [if_neg hids, h]

/-- Witness for `C8_batch_failure_yields_empty_mapping` on a concrete
failing oracle and batch. -/
theorem C8_batch_failure_yields_empty_mapping_witness :
    get_entity_metadata noQuery ["Q199804", "Q199766"] = [] :=
  C8_batch_failure_yields_empty_mapping noQuery ["Q199804", "Q199766"]
    "query failed" rfl

/-- Loop invariant behind claim C4: the fetch log stays duplicate-free and
every fetched id is in the visited set. -/
theorem fetchLog_inv (fetch : String → Option EntityData)
    (runQuery : List String → Except String (List QueryBinding))
    (max_depth : Nat) :
    ∀ (fuel : Nat) (st0 : ExpandState),
      (st0.fetchLog.Nodup ∧ ∀ x ∈ st0.fetchLog, x ∈ st0.processed_entities) →
      ((expandLoop fetch runQuery max_depth fuel st0).fetchLog.Nodup ∧
        ∀ x ∈ (expandLoop fetch runQuery max_depth fuel st0).fetchLog,
          x ∈ (expandLoop fetch runQuery max_depth fuel st0).processed_entities) := by
  apply expandLoop_inv fetch runQuery max_depth
    (fun s => s.fetchLog.Nodup ∧ ∀ x ∈ s.fetchLog, x ∈ s.processed_entities)
  · intro s e hI
    obtain ⟨h1, h2⟩ := hI
    unfold processEntity
    by_cases hc : e.1 ∈ s.processed_entities ∨ max_depth ≤ e.2
    · rw [if_pos hc]; exact ⟨h1, h2⟩
    · rw [if_neg hc]
      push_neg at hc
      have hnotlog : e.1 ∉ s.fetchLog := fun hmem => hc.1 (h2 _ hmem)
      have h1' : (s.fetchLog ++ [e.1]).Nodup := by
        rw [List.nodup_append]
        refine ⟨h1, List.nodup_singleton _, ?_⟩
        intro x hx hx'
        rw [List.mem_singleton] at hx'
        exact hnotlog (hx' ▸ hx)
      have h2' : ∀ x ∈ s.fetchLog ++ [e.1], x ∈ s.processed_entities ++ [e.1] := by
        intro x hx
        rcases List.mem_append.mp hx with hx | hx
        · exact List.mem_append.mpr (Or.inl (h2 _ hx))
        · exact List.mem_append.mpr (Or.inr hx)
      cases hf : fetch e.1 with
      | none => exact ⟨h1', h2'⟩
      | some edv => exact ⟨h1', h2'⟩
  · intro s ets em hI
    exact hI

/-- Claim C4: in every run of the expansion, each distinct NodeId is
passed to the Fetcher at most once (`fetchLog.Nodup`), every fetched id is
in the final VisitedSet, and the total fetch count is bounded by the
number of distinct visited identifiers (themselves a subset of the
identifiers ever discovered, since ids enter `processed_entities` only
when dequeued from the frontier). -/
theorem C4_no_duplicate_fetch (fetch : String → Option EntityData)
    (runQuery : List String → Except String (List QueryBinding))
    (em0 : String → Option Metadata) (seeds : List String)
    (max_depth fuel : Nat) :
    let st := expand_subgraph fetch runQuery em0 seeds max_depth fuel
    st.fetchLog.Nodup ∧ (∀ x ∈ st.fetchLog, x ∈ st.processed_entities) ∧
      st.fetchLog.length ≤ st.processed_entities.dedup.length := by
  intro st
  have key := fetchLog_inv fetch runQuery max_depth fuel
    { entities := []
      all_triples := []
      entities_to_process := seeds.map (fun s => (s, 0))
      processed_entities := []
      entity_metadata := em0
      fetchLog := []
      enqLog := []
      depthLog := [] }
    ⟨List.nodup_nil, by intro x hx; exact absurd hx (List.not_mem_nil x)⟩
  refine ⟨key.1, key.2, ?_⟩
  have e1 : st.fetchLog.toFinset.card = st.fetchLog.length :=
    List.toFinset_card_of_nodup key.1
  have e2 : st.fetchLog.toFinset ⊆ st.processed_entities.toFinset := by
    intro x hx
    rw [List.mem_toFinset] at hx ⊢
    exact key.2 x hx
  have e3 := Finset.card_le_card e2
  rw [e1, List.card_toFinset] at e3
  exact e3

/-- Witness for `C4_no_duplicate_fetch` on the example run. -/
theorem C4_no_duplicate_fetch_witness :
    runC2.fetchLog.Nodup ∧
      runC2.fetchLog.length ≤ runC2.processed_entities.dedup.length := by
  have h := C4_no_duplicate_fetch fetchAB noQuery emNone ["A"] 1 3
  exact ⟨h.1, h.2.2⟩

/-- Loop invariant behind claim C5: the triple list is exactly the
depth-log projection, and every logged extraction depth is below the
cutoff. -/
theorem depthLog_inv (fetch : String → Option EntityData)
    (runQuery : List String → Except String (List QueryBinding))
    (max_depth : Nat) :
    ∀ (fuel : Nat) (st0 : ExpandState),
      (st0.all_triples = st0.depthLog.map Prod.snd ∧
        ∀ q ∈ st0.depthLog, q.1 < max_depth) →
      ((expandLoop fetch runQuery max_depth fuel st0).all_triples =
          (expandLoop fetch runQuery max_depth fuel st0).depthLog.map Prod.snd ∧
        ∀ q ∈ (expandLoop fetch runQuery max_depth fuel st0).depthLog,
          q.1 < max_depth) := by
  apply expandLoop_inv fetch runQuery max_depth
    (fun s => s.all_triples = s.depthLog.map Prod.snd ∧
      ∀ q ∈ s.depthLog, q.1 < max_depth)
  · intro s e hI
    obtain ⟨h1, h2⟩ := hI
    unfold processEntity
    by_cases hc : e.1 ∈ s.processed_entities ∨ max_depth ≤ e.2
    · rw [if_pos hc]; exact ⟨h1, h2⟩
    · rw [if_neg hc]
      push_neg at hc
      cases hf : fetch e.1 with
      | none => exact ⟨h1, h2⟩
      | some edv =>
        constructor
        · simp only [List.map_append, List.map_map]
          rw [← h1]
          congr 1
          exact (List.map_id _).symm
        · intro q hq
          rcases List.mem_append.mp hq with hq | hq
          · exact h2 _ hq
          · rw [List.mem_map] at hq
            obtain ⟨t, ht, hqt⟩ := hq
            rw [← hqt]
            exact hc.2
  · intro s ets em hI
    exact hI

/-- Claim C5: the output triples are exactly the ones recorded by the
extraction log, and every extraction happened while the dequeued entry's
depth was strictly below `max_depth` — an entry dequeued at depth
`≥ max_depth` is skipped before any edge is produced. -/
theorem C5_depth_bound (fetch : String → Option EntityData)
    (runQuery : List String → Except String (List QueryBinding))
    (em0 : String → Option Metadata) (seeds : List String)
    (max_depth fuel : Nat) :
    let st := expand_subgraph fetch runQuery em0 seeds max_depth fuel
    st.all_triples = st.depthLog.map Prod.snd ∧
      ∀ q ∈ st.depthLog, q.1 < max_depth := by
  intro st
  exact depthLog_inv fetch runQuery max_depth fuel
    { entities := []
      all_triples := []
      entities_to_process := seeds.map (fun s => (s, 0))
      processed_entities := []
      entity_metadata := em0
      fetchLog := []
      enqLog := []
      depthLog := [] }
    ⟨rfl, by intro q hq; exact absurd hq (List.not_mem_nil q)⟩

/-- Witness for `C5_depth_bound` on the example run: its single triple was
extracted at depth 0, below the cutoff 1. -/
theorem C5_depth_bound_witness :
    runC2.all_triples = runC2.depthLog.map Prod.snd ∧
      ((0 : Nat), tripleAB).1 < 1 := by
  have h := C5_depth_bound fetchAB noQuery emNone ["A"] 1 3
  refine ⟨h.1, h.2 (0, tripleAB) ?_⟩
  show (0, tripleAB) ∈ [((0 : Nat), tripleAB)]
  exact List.mem_singleton_self _

/-- Claim C6: every triple built by the extraction has a predicate that is
a key of the Relation Catalog (`medical_properties`), and it comes from a
claim of the fetched payload whose mainsnak datatype is `wikibase-item`
and whose datavalue is the item reference that became the triple's target;
claims with non-catalog properties or non-item values yield nothing. -/
theorem C6_relation_filter (em : String → Option Metadata)
    (entity_data : Option EntityData) (t : Triple)
    (ht : t ∈ extract_triples_with_metadata em entity_data) :
    (dictGet t.predicate.id medical_properties).isSome ∧
    ∃ ed pc claim, entity_data = some ed ∧ pc ∈ ed.claims.getD [] ∧
      pc.1 = t.predicate.id ∧ claim ∈ pc.2 ∧
      claim.mainsnak.datatype = some "wikibase-item" ∧
      claim.mainsnak.valueId = some t.target.id := by
  obtain ⟨ed, hed, _, hcat, pc, claim, h1, h2, h3, h4, h5⟩ :=
    mem_extract em entity_data t ht
  exact ⟨hcat, ed, pc, claim, hed, h1, h2, h3, h4, h5⟩

/-- Witness for `C6_relation_filter`: the predicate of the extracted
triple `A → B` is in the catalog. -/
theorem C6_relation_filter_witness :
    (dictGet tripleAB.predicate.id medical_properties).isSome :=
  (C6_relation_filter emNone (some (edTo "A" "B")) tripleAB
    (by show tripleAB ∈ [tripleAB]; exact List.mem_singleton_self _)).1

/-- Loop invariant behind claim C10: every produced triple's source id is
a stored entities key, and every stored entity is a successful fetch
result.  Needs the fetched payload's own id field to match the requested
id, which holds of the modelled endpoint since `get_entity_data` returns
`data['entities'][entity_id]`. -/
theorem triplesStored_inv (fetch : String → Option EntityData)
    (runQuery : List String → Except String (List QueryBinding))
    (max_depth : Nat) (hid : ∀ s ed, fetch s = some ed → ed.id = s) :
    ∀ (fuel : Nat) (st0 : ExpandState),
      ((∀ t ∈ st0.all_triples, (dictGet t.source.id st0.entities).isSome) ∧
        (∀ p ∈ st0.entities, fetch p.1 = some p.2.data)) →
      ((∀ t ∈ (expandLoop fetch runQuery max_depth fuel st0).all_triples,
          (dictGet t.source.id
            (expandLoop fetch runQuery max_depth fuel st0).entities).isSome) ∧
        (∀ p ∈ (expandLoop fetch runQuery max_depth fuel st0).entities,
          fetch p.1 = some p.2.data)) := by
  apply expandLoop_inv fetch runQuery max_depth
    (fun s => (∀ t ∈ s.all_triples, (dictGet t.source.id s.entities).isSome) ∧
      (∀ p ∈ s.entities, fetch p.1 = some p.2.data))
  · intro s e hI
    obtain ⟨h1, h2⟩ := hI
    unfold processEntity
    by_cases hc : e.1 ∈ s.processed_entities ∨ max_depth ≤ e.2
    · rw [if_pos hc]; exact ⟨h1, h2⟩
    · rw [if_neg hc]
      cases hf : fetch e.1 with
      | none => exact ⟨h1, h2⟩
      | some edv =>
        constructor
        · intro t ht
          rcases List.mem_append.mp ht with ht | ht
          · rw [dictGet_dictInsert]
            by_cases hts : t.source.id = e.1
            · rw [if_pos hts]; simp
            · rw [if_neg hts]; exact h1 _ ht
          · obtain ⟨ed2, hed2, hsrc, _⟩ := mem_extract _ _ _ ht
            have hde : edv = ed2 := Option.some.inj hed2
            have hsrc' : t.source.id = e.1 := by
              rw [hsrc, ← hde, hid _ _ hf]
            rw [dictGet_dictInsert, if_pos hsrc']
            simp
        · intro p hp
          rcases mem_dictInsert _ _ _ _ hp with hmem | heq
          · exact h2 _ hmem
          · rw [heq]
            exact hf
  · intro s ets em hI
    exact hI

/-- Claim C10: in every run (over a fetcher whose payload ids match the
requested ids), every triple's source id is a key of the `entities` map,
and every `entities` entry stores exactly a successful fetch result — so
skipped and fetch-failed nodes contribute neither triples nor entities
entries. -/
theorem C10_triples_from_stored_entities (fetch : String → Option EntityData)
    (runQuery : List String → Except String (List QueryBinding))
    (em0 : String → Option Metadata) (seeds : List String)
    (max_depth fuel : Nat) (hid : ∀ s ed, fetch s = some ed → ed.id = s) :
    let st := expand_subgraph fetch runQuery em0 seeds max_depth fuel
    (∀ t ∈ st.all_triples, (dictGet t.source.id st.entities).isSome) ∧
    (∀ p ∈ st.entities, fetch p.1 = some p.2.data) := by
  intro st
  exact triplesStored_inv fetch runQuery max_depth hid fuel
    { entities := []
      all_triples := []
      entities_to_process := seeds.map (fun s => (s, 0))
      processed_entities := []
      entity_metadata := em0
      fetchLog := []
      enqLog := []
      depthLog := [] }
    ⟨by intro t ht; exact absurd ht (List.not_mem_nil t),
     by intro p hp; exact absurd hp (List.not_mem_nil p)⟩

/-- Witness for `C10_triples_from_stored_entities` on the example run: the
source `A` of the only triple is a key of the entities map. -/
theorem C10_triples_from_stored_entities_witness :
    (dictGet tripleAB.source.id runC2.entities).isSome := by
  have h := C10_triples_from_stored_entities fetchAB noQuery emNone ["A"] 1 3
    (by
      intro s ed hfe
      unfold fetchAB at hfe
      split_ifs at hfe with h1 h2
      · rw [← Option.some.inj hfe]; exact h1.symm
      · rw [← Option.some.inj hfe]; exact h2.symm)
  exact h.1 tripleAB (by show tripleAB ∈ [tripleAB]; exact List.mem_singleton_self _)

/-- Claim C7: for every network behaviour, `get_entity_data` consults the
network on at most `max_retries = 3` attempts; every sleep between two
successive attempts equals `retry_delay` times the (1-based) number of the
attempt that just failed (linear backoff: the trace's sleeps are exactly
`retry_delay * (a + 1)` for each non-final consulted attempt `a`); and if
every attempt raises a transient request error the call returns the
Failure result `none` rather than aborting, so the caller can continue
with other frontier entries. -/
theorem C7_retry_policy (net : Nat → AttemptOutcome) (entity_id : String) :
    (get_entity_data net entity_id).attempts.length ≤ max_retries ∧
    (get_entity_data net entity_id).sleeps =
      (get_entity_data net entity_id).attempts.dropLast.map
        (fun a => retry_delay * (a + 1)) ∧
    ((∀ a, a < max_retries → net a = AttemptOutcome.reqError) →
      (get_entity_data net entity_id).result = none) := by
  have hrange : List.range max_retries = [0, 1, 2] := rfl
  unfold get_entity_data
  rw [hrange]
  rcases h0 : net 0 with _ | r0
  · rcases h1 : net 1 with _ | r1
    · rcases h2 : net 2 with _ | r2
      · refine ⟨?_, ?_, ?_⟩ <;>
          simp [getEntityDataGo, h0, h1, h2, max_retries, retry_delay]
      · rcases hl2 : dictGet entity_id r2.entities with _ | d
        · refine ⟨?_, ?_, ?_⟩ <;>
            simp [getEntityDataGo, h0, h1, h2, hl2, max_retries, retry_delay]
        · refine ⟨?_, ?_, ?_⟩
          · simp [getEntityDataGo, h0, h1, h2, hl2, max_retries, retry_delay]
          · simp [getEntityDataGo, h0, h1, h2, hl2, max_retries, retry_delay]
          · intro hall
            have hx := hall 2 (by norm_num [max_retries])
            rw [h2] at hx
            cases hx
    · rcases hl1 : dictGet entity_id r1.entities with _ | d
      · refine ⟨?_, ?_, ?_⟩ <;>
          simp [getEntityDataGo, h0, h1, hl1, max_retries, retry_delay]
      · refine ⟨?_, ?_, ?_⟩
        · simp [getEntityDataGo, h0, h1, hl1, max_retries, retry_delay]
        · simp [getEntityDataGo, h0, h1, hl1, max_retries, retry_delay]
        · intro hall
          have hx := hall 1 (by norm_num [max_retries])
          rw [h1] at hx
          cases hx
  · rcases hl0 : dictGet entity_id r0.entities with _ | d
    · refine ⟨?_, ?_, ?_⟩ <;>
        simp [getEntityDataGo, h0, hl0, max_retries, retry_delay]
    · refine ⟨?_, ?_, ?_⟩
      · simp [getEntityDataGo, h0, hl0, max_retries, retry_delay]
      · simp [getEntityDataGo, h0, hl0, max_retries, retry_delay]
      · intro hall
        have hx := hall 0 (by norm_num [max_retries])
        rw [h0] at hx
        cases hx

/-- Witness for `C7_retry_policy` on the always-failing network: at most
three attempts are made and the call degrades to `none`. -/
theorem C7_retry_policy_witness :
    (get_entity_data netAllErr "Q199804").attempts.length ≤ max_retries ∧
    (get_entity_data netAllErr "Q199804").result = none := by
  have h := C7_retry_policy netAllErr "Q199804"
  exact ⟨h.1, h.2.2 (fun a _ => rfl)⟩

/-! Hub-entity lemmas for claim C9. -/

theorem analyzeStep_hub (a : Analysis) (t : Triple) :
    (analyzeStep a t).hub_entities =
      hubTouch (hubTouch a.hub_entities t.source.id t.source.metadata)
        t.target.id t.target.metadata := by
  by_cases h : t.predicate.id = "P31" <;> simp [analyzeStep, h]

theorem foldl_analyzeStep_hub (ts : List Triple) (a : Analysis) :
    (ts.foldl analyzeStep a).hub_entities =
      (endpointsOf ts).foldl (fun d pr => hubTouch d pr.1 pr.2)
        a.hub_entities := by
  induction ts generalizing a with
  | nil => rfl
  | cons t ts ih =>
    rw [List.foldl_cons, ih]
    have he : endpointsOf (t :: ts) =
        (t.source.id, t.source.metadata) ::
          (t.target.id, t.target.metadata) :: endpointsOf ts := rfl
    rw [he, List.foldl_cons, List.foldl_cons, analyzeStep_hub]

theorem hubTouch_inv (eid : String) (d : List (String × HubInfo))
    (e : String) (m : Metadata)
    (hd : ∀ p ∈ d, p.1 = eid → p.2.label = eid ∧ p.2.description = "")
    (hm : e = eid → m = ⟨none, none⟩) :
    ∀ p ∈ hubTouch d e m, p.1 = eid →
      p.2.label = eid ∧ p.2.description = "" := by
  intro p hp hpe
  unfold hubTouch at hp
  rw [List.mem_map] at hp
  obtain ⟨q, hq, hfq⟩ := hp
  have hq' : q ∈ d ∨
      q = (e, ⟨m.label.getD e, m.description.getD "", 0⟩) := by
    by_cases hsome : (dictGet e d).isSome
    · rw [if_pos hsome] at hq; exact Or.inl hq
    · rw [if_neg hsome] at hq
      rcases List.mem_append.mp hq with hx | hx
      · exact Or.inl hx
      · right; simpa using hx
  by_cases hqe : q.1 = e
  · rw [if_pos hqe] at hfq
    rw [← hfq] at hpe ⊢
    rcases hq' with hmem | hseed
    · exact hd q hmem hpe
    · rw [hseed] at hpe ⊢
      have hme : e = eid := hpe
      have hm' := hm hme
      rw [hm']
      simp [hme]
  · rw [if_neg hqe] at hfq
    rw [← hfq] at hpe ⊢
    rcases hq' with hmem | hseed
    · exact hd q hmem hpe
    · rw [hseed] at hqe
      exact absurd rfl hqe

theorem hubFold_inv (eid : String) (pairs : List (String × Metadata))
    (hpairs : ∀ pr ∈ pairs, pr.1 = eid → pr.2 = ⟨none, none⟩) :
    ∀ d, (∀ p ∈ d, p.1 = eid → p.2.label = eid ∧ p.2.description = "") →
      ∀ p ∈ pairs.foldl (fun d pr => hubTouch d pr.1 pr.2) d,
        p.1 = eid → p.2.label = eid ∧ p.2.description = "" := by
  induction pairs with
  | nil => intro d hd; exact hd
  | cons pr prs ih =>
    intro d hd
    rw [List.foldl_cons]
    exact ih
      (fun q hq hqe => hpairs q (List.mem_cons_of_mem _ hq) hqe)
      (hubTouch d pr.1 pr.2)
      (hubTouch_inv eid d pr.1 pr.2 hd
        (fun he => hpairs pr (List.mem_cons_self _ _) he))

theorem hubTouch_mem_self (d : List (String × HubInfo)) (e : String)
    (m : Metadata) : ∃ h, (e, h) ∈ hubTouch d e m := by
  unfold hubTouch
  by_cases hsome : (dictGet e d).isSome
  · rw [if_pos hsome]
    obtain ⟨v, hv⟩ := Option.isSome_iff_exists.mp hsome
    have hmem : (e, v) ∈ d := dictGet_mem e d v hv
    refine ⟨{ v with connection_count := v.connection_count + 1 }, ?_⟩
    have hmap := List.mem_map_of_mem
      (fun p : String × HubInfo =>
        if p.1 = e then
          (p.1, { p.2 with connection_count := p.2.connection_count + 1 })
        else p) hmem
    simpa using hmap
  · rw [if_neg hsome]
    refine ⟨⟨m.label.getD e, m.description.getD "", 0 + 1⟩, ?_⟩
    simp

theorem hubTouch_mem_preserved (d : List (String × HubInfo)) (e : String)
    (m : Metadata) (k : String) (h : HubInfo) (hmem : (k, h) ∈ d) :
    ∃ h', (k, h') ∈ hubTouch d e m := by
  unfold hubTouch
  have hd1 : (k, h) ∈
      (if (dictGet e d).isSome then d
       else d ++ [(e, ⟨m.label.getD e, m.description.getD "", 0⟩)]) := by
    split
    · exact hmem
    · exact List.mem_append_left _ hmem
  have hmap := List.mem_map_of_mem
    (fun p : String × HubInfo =>
      if p.1 = e then
        (p.1, { p.2 with connection_count := p.2.connection_count + 1 })
      else p) hd1
  by_cases hk : k = e
  · exact ⟨{ h with connection_count := h.connection_count + 1 },
      by simpa [hk] using hmap⟩
  · exact ⟨h, by simpa [hk] using hmap⟩

theorem hubFold_key_present (pairs : List (String × Metadata)) (eid : String) :
    ∀ d, ((∃ h, (eid, h) ∈ d) ∨ (∃ m, (eid, m) ∈ pairs)) →
      ∃ h, (eid, h) ∈ pairs.foldl (fun d pr => hubTouch d pr.1 pr.2) d := by
  induction pairs with
  | nil =>
    intro d hd
    rcases hd with hd | hd
    · exact hd
    · obtain ⟨m, hm⟩ := hd
      exact absurd hm (List.not_mem_nil _)
  | cons pr prs ih =>
    intro d hd
    rw [List.foldl_cons]
    rcases hd with ⟨h, hh⟩ | ⟨m, hm⟩
    · exact ih _ (Or.inl (hubTouch_mem_preserved d pr.1 pr.2 eid h hh))
    · rcases List.mem_cons.mp hm with heq | htail
      · have hpr1 : pr.1 = eid := by rw [← heq]
        refine ih _ (Or.inl ?_)
        rw [← hpr1]
        exact hubTouch_mem_self d pr.1 pr.2
      · exact ih _ (Or.inr ⟨m, htail⟩)

theorem mem_insertDesc (x y : String × HubInfo)
    (l : List (String × HubInfo)) (hy : y ∈ insertDesc x l) :
    y = x ∨ y ∈ l := by
  induction l with
  | nil =>
    have hy' : y ∈ [x] := hy
    exact Or.inl (List.mem_singleton.mp hy')
  | cons z zs ih =>
    unfold insertDesc at hy
    by_cases hz : z.2.connection_count < x.2.connection_count
    · rw [if_pos hz] at hy
      rcases List.mem_cons.mp hy with h | h
      · exact Or.inl h
      · exact Or.inr h
    · rw [if_neg hz] at hy
      rcases List.mem_cons.mp hy with h | h
      · exact Or.inr (h ▸ List.mem_cons_self _ _)
      · rcases ih h with h' | h'
        · exact Or.inl h'
        · exact Or.inr (List.mem_cons_of_mem _ h')

theorem mem_sortByCountDesc (y : String × HubInfo)
    (l : List (String × HubInfo)) (hy : y ∈ sortByCountDesc l) : y ∈ l := by
  have key : ∀ (l acc : List (String × HubInfo)),
      y ∈ l.foldl (fun acc x => insertDesc x acc) acc → y ∈ acc ∨ y ∈ l := by
    intro l
    induction l with
    | nil => intro acc h; exact Or.inl h
    | cons x xs ih =>
      intro acc h
      rw [List.foldl_cons] at h
      rcases ih _ h with h' | h'
      · rcases mem_insertDesc x y acc h' with h'' | h''
        · exact Or.inr (h'' ▸ List.mem_cons_self _ _)
        · exact Or.inl h''
      · exact Or.inr (List.mem_cons_of_mem _ h')
  rcases key l [] hy with h | h
  · exact absurd h (List.not_mem_nil y)
  · exact h

/-- Claim C9: if every endpoint occurrence of an id in the triple list
carries the empty metadata dict (the id has no available metadata), then
every hub entry of the analysis output keyed by that id uses the raw id as
its label and the empty string as its description, and — whenever the id
occurs as an edge endpoint at all — the hub tally (before the top-20
truncation) does contain such an entry.  All accesses are total, so
missing metadata can never raise a missing-field error downstream. -/
theorem C9_metadata_fallback (sg : Subgraph) (eid : String)
    (hmeta : ∀ pr ∈ endpointsOf sg.triples, pr.1 = eid → pr.2 = ⟨none, none⟩) :
    (∀ p ∈ (analyze_subgraph sg).hub_entities, p.1 = eid →
      p.2.label = eid ∧ p.2.description = "") ∧
    ((∃ pr ∈ endpointsOf sg.triples, pr.1 = eid) →
      ∃ h, (eid, h) ∈
          (sg.triples.foldl analyzeStep (analyzeBase sg)).hub_entities ∧
        h.label = eid ∧ h.description = "") := by
  have hInv := hubFold_inv eid (endpointsOf sg.triples) hmeta []
    (by intro p hp; exact absurd hp (List.not_mem_nil p))
  constructor
  · intro p hp hpe
    have hp1 : p ∈ sortByCountDesc
        ((sg.triples.foldl analyzeStep (analyzeBase sg)).hub_entities) :=
      List.take_subset _ _ hp
    have hp2 := mem_sortByCountDesc _ _ hp1
    rw [foldl_analyzeStep_hub] at hp2
    exact hInv p hp2 hpe
  · intro hex
    obtain ⟨pr, hpr, hpre⟩ := hex
    have hex' : ∃ m, (eid, m) ∈ endpointsOf sg.triples := by
      refine ⟨pr.2, ?_⟩
      rw [← hpre]
      exact hpr
    obtain ⟨h, hh⟩ := hubFold_key_present (endpointsOf sg.triples) eid []
      (Or.inr hex')
    rw [foldl_analyzeStep_hub]
    have hld := hInv (eid, h) hh rfl
    exact ⟨h, hh, hld.1, hld.2⟩

/-- Witness for `C9_metadata_fallback`: in the example run the enrichment
returned nothing, so `B` appears in the hub tally with label `B` and empty
description. -/
theorem C9_metadata_fallback_witness :
    ∃ h, ("B", h) ∈
        ((subgraphOf runC2).triples.foldl analyzeStep
          (analyzeBase (subgraphOf runC2))).hub_entities ∧
      h.label = "B" ∧ h.description = "" := by
  have hthm := C9_metadata_fallback (subgraphOf runC2) "B" (by decide)
  exact hthm.2 (by decide)

end KG
